import Mathlib

/-!
Verification development for the abode repository (three Python scripts:
`streamlit_app.py`, `image_remover.py`, `style_image_downloader.py`).

Python strings are modelled as `List Char`; `str.strip`, `str.upper`,
`str.split("\n")`, `str.find`, `in` (substring test) are given explicit
executable models below.  Stateful scripts are embedded as pure functions
over explicit state, with external effects (OpenAI / Pexels calls, file
reads) supplied by oracle parameters.
-/

abbrev Chars := List Char

/-- Model of Python `str.strip()` (drop leading and trailing whitespace). -/
def pyStrip (s : Chars) : Chars :=
  ((s.dropWhile Char.isWhitespace).reverse.dropWhile Char.isWhitespace).reverse

/-- Model of Python `str.upper()` (ASCII case mapping). -/
def pyUpper (s : Chars) : Chars :=
  s.map Char.toUpper

/-- Model of Python `str.split("\n")`: `"" ↦ [""]`, separators split everywhere. -/
def splitNl : Chars → List Chars
  | [] => [[]]
  | c :: cs =>
    if c = '\n' then [] :: splitNl cs
    else
      match splitNl cs with
      | [] => [[c]]
      | l :: ls => (c :: l) :: ls

/-- Model of Python `str.find(pat)`: index of the first occurrence, if any. -/
def findIdx? (pat : Chars) : Chars → Option Nat
  | [] => if pat = [] then some 0 else none
  | c :: t => if pat.isPrefixOf (c :: t) then some 0 else (findIdx? pat t).map (· + 1)

/-- Model of Python `pat in s` (substring containment). -/
def containsSub (s pat : Chars) : Bool :=
  (findIdx? pat s).isSome

theorem splitNl_ne_nil (t : Chars) : splitNl t ≠ [] := by
  induction t with
  | nil => simp [splitNl]
  | cons c cs ih =>
    simp only [splitNl]
    split
    · simp
    · split
      · simp
      · simp

theorem dropWhile_append_chars (p : Char → Bool) (xs ys : Chars) :
    (xs ++ ys).dropWhile p =
      if xs.dropWhile p = [] then ys.dropWhile p else xs.dropWhile p ++ ys := by
  induction xs with
  | nil => simp
  | cons a l ih =>
    by_cases h : p a
    · simpa [List.dropWhile, h] using ih
    · simp [List.dropWhile, h]

theorem dropWhile_suffix_chars (p : Char → Bool) (l : Chars) :
    l.dropWhile p <:+ l := by
  induction l with
  | nil => simp
  | cons a t ih =>
    by_cases h : p a
    · simp only [List.dropWhile, h]
      exact ih.trans (List.suffix_cons a t)
    · simp [List.dropWhile, h]

theorem trimRight_isPrefix (l : Chars) :
    (l.reverse.dropWhile Char.isWhitespace).reverse <+: l := by
  have h := dropWhile_suffix_chars Char.isWhitespace l.reverse
  have := List.reverse_prefix.mpr h
  simpa using this

theorem trimRight_prefix_append (a t : Chars) :
    (a.reverse.dropWhile Char.isWhitespace).reverse <+:
      ((a ++ t).reverse.dropWhile Char.isWhitespace).reverse := by
  rw [List.reverse_append]
  rw [dropWhile_append_chars Char.isWhitespace t.reverse a.reverse]
  split
  · exact List.prefix_rfl
  · rw [List.reverse_append, List.reverse_reverse]
    exact (trimRight_isPrefix a).trans (List.prefix_append _ _)

/-- Stripping a string yields a prefix of stripping any extension of it. -/
theorem pyStrip_prefix_append (s t : Chars) : pyStrip s <+: pyStrip (s ++ t) := by
  unfold pyStrip
  rw [dropWhile_append_chars Char.isWhitespace s t]
  split
  · rename_i h
    rw [h]
    simp
  · exact trimRight_prefix_append (s.dropWhile Char.isWhitespace) t

namespace App

/-!
Embedding of `streamlit_app.py`.  The response-segmentation heuristic is
`generate_design_options` (lines 218-299): it splits the model reply into
design-option segments, pads by duplicating the first segment, and
truncates to the requested count.
-/

/-- Marker test of lines 230 and 249: `part.strip().upper().startswith(pref) and ":" in part`. -/
def isOptionMarker (pref : Chars) (line : Chars) : Bool :=
  pref.isPrefixOf (pyUpper (pyStrip line)) && line.contains ':'

/-- Loop of lines 225-240 (and 244-259): accumulate lines into the current
segment, flushing the stripped segment whenever a marker line starts a new
one; the trailing segment is flushed after the loop. -/
def markerSplitGo (pref : Chars) : List Chars → List Chars → Chars → List Chars
  | [], options, current =>
      if current = [] then options else options ++ [pyStrip current]
  | part :: parts, options, current =>
      if isOptionMarker pref part then
        markerSplitGo pref parts
          (if current = [] then options else options ++ [pyStrip current]) part
      else
        markerSplitGo pref parts options (current ++ '\n' :: part)

/-- Marker-based split of the whole reply (branches at lines 223-259). -/
def markerSplit (pref : Chars) (text : Chars) : List Chars :=
  markerSplitGo pref (splitNl text) [] []

/-- Python literal `f"{i}."` used by the numbered-list branch. -/
def natDot (i : Nat) : Chars :=
  (Nat.repr i).data ++ ['.']

/-- Lines 263-267: collect the `"i."` markers (1 ≤ i ≤ numOptions) present in the text. -/
def numberedParts (text : Chars) (numOptions : Nat) : List Chars :=
  ((List.range numOptions).map (· + 1)).filterMap
    (fun i => if containsSub text (natDot i) then some (natDot i) else none)

/-- Lines 270-282: slice the text between consecutive found `"i."` markers. -/
def numberedSplitGo (text : Chars) : List Chars → List Chars
  | [] => []
  | [p] =>
      match findIdx? p text with
      | some s => [text.drop s]
      | none => []
  | p :: q :: rest =>
      match findIdx? p text, findIdx? q text with
      | some s, some e => ((text.drop s).take (e - s)) :: numberedSplitGo text (q :: rest)
      | some _, none => numberedSplitGo text (q :: rest)
      | none, _ => numberedSplitGo text (q :: rest)

/-- Branch selection of lines 222-285: `"OPTION 1"` markers, then
`"DESIGN OPTION 1"` markers, then numbered `"i."` markers, then the whole
text as a single segment. -/
def splitResponse (text : Chars) (numOptions : Nat) : List Chars :=
  if containsSub (pyUpper text) ("OPTION 1".data) then
    markerSplit ("OPTION ".data) text
  else if containsSub (pyUpper text) ("DESIGN OPTION 1".data) then
    markerSplit ("DESIGN OPTION ".data) text
  else if containsSub text ("1.".data) && containsSub text ("2.".data) then
    numberedSplitGo text (numberedParts text numOptions)
  else
    [text]

/-- Python literal `f"Design Variation {n}:\n"` (line 293). -/
def variationLabel (n : Nat) : Chars :=
  "Design Variation ".data ++ (Nat.repr n).data ++ ":\n".data

/-- Padding loop of lines 288-293, run for the number of missing segments:
each round appends a copy of the first segment under a variation label. -/
def padGo (first : Chars) : Nat → List Chars → List Chars
  | 0, options => options
  | k + 1, options =>
      padGo first k (options ++ [variationLabel (options.length + 1) ++ first])

/-- Lines 288-297: pad with variations of the first segment up to
`numOptions`, then truncate to `numOptions`. -/
def padTruncate (numOptions : Nat) (options : List Chars) : List Chars :=
  (padGo (options.headD []) (numOptions - options.length) options).take numOptions

/-- Whole text-processing pipeline of lines 218-299 applied to a reply. -/
def generateOptionsFromText (text : Chars) (numOptions : Nat) : List Chars :=
  padTruncate numOptions (splitResponse text numOptions)

/-- Outcome of the OpenAI call in `generate_design_options`: either the
reply text, or the message of an exception raised anywhere inside the
`try` block (image encoding, API call, or response access). -/
inductive ApiResult where
  | ok : Chars → ApiResult
  | err : Chars → ApiResult

/-- Embedding of `generate_design_options` (lines 124-304): on success the
reply is segmented, padded and truncated; any exception is caught at line
301 and turned into a single `"Error generating design: ..."` element. -/
def generate_design_options (api : ApiResult) (numOptions : Nat) : List Chars :=
  match api with
  | .ok text => generateOptionsFromText text numOptions
  | .err msg => "Error generating design: ".data ++ msg |> fun e => [e]

end App

example : App.splitResponse "Intro\nOPTION 1: A\nOPTION 2: B".data 5 =
    ["Intro".data, "OPTION 1: A".data, "OPTION 2: B".data] := by decide

example : (App.generateOptionsFromText "hello there".data 5).length = 5 := by decide

example : App.splitResponse "1. first 2. second".data 5 =
    ["1. first ".data, "2. second".data] := by decide

namespace App

/-- Reference form of the marker-split loop once the current segment is
nonempty: each marker line flushes the running segment and starts a new one. -/
def segAux (pref : Chars) : List Chars → Chars → List Chars
  | [], current => [pyStrip current]
  | p :: ps, current =>
      if isOptionMarker pref p then pyStrip current :: segAux pref ps p
      else segAux pref ps (current ++ '\n' :: p)

theorem isOptionMarker_ne_nil {pref line : Chars} (hpref : pref ≠ [])
    (h : isOptionMarker pref line = true) : line ≠ [] := by
  intro hl
  subst hl
  cases pref with
  | nil => exact hpref rfl
  | cons a l =>
    simp [isOptionMarker, pyStrip, pyUpper, List.isPrefixOf] at h

theorem markerSplitGo_eq_segAux (pref : Chars) (hpref : pref ≠ []) :
    ∀ (parts : List Chars) (options : List Chars) (current : Chars),
      current ≠ [] →
      markerSplitGo pref parts options current = options ++ segAux pref parts current := by
  intro parts
  induction parts with
  | nil =>
    intro options current hc
    simp [markerSplitGo, segAux, hc]
  | cons p ps ih =>
    intro options current hc
    by_cases hm : isOptionMarker pref p = true
    · have hp : p ≠ [] := isOptionMarker_ne_nil hpref hm
      simp only [markerSplitGo, segAux, hm, if_true, ite_true]
      rw [if_neg hc, ih (options ++ [pyStrip current]) p hp]
      simp
    · have hc' : current ++ '\n' :: p ≠ [] := by simp
      simp only [markerSplitGo, segAux, hm]
      rw [if_neg (by simpa using hm), if_neg (by simpa using hm), ih options _ hc']

theorem segAux_length (pref : Chars) :
    ∀ (parts : List Chars) (current : Chars),
      (segAux pref parts current).length = parts.countP (isOptionMarker pref) + 1 := by
  intro parts
  induction parts with
  | nil => intro current; simp [segAux]
  | cons p ps ih =>
    intro current
    by_cases hm : isOptionMarker pref p = true
    · simp [segAux, hm, List.countP_cons, ih]
    · simp [segAux, hm, List.countP_cons, ih, Bool.of_not_eq_true hm]

theorem segAux_getD_prefix (pref : Chars) :
    ∀ (parts : List Chars) (current : Chars) (j : Nat),
      j < (current :: parts.filter (isOptionMarker pref)).length →
      pyStrip ((current :: parts.filter (isOptionMarker pref)).getD j []) <+:
        (segAux pref parts current).getD j [] := by
  intro parts
  induction parts with
  | nil =>
    intro current j hj
    simp only [List.filter_nil, List.length_cons, List.length_nil] at hj
    interval_cases j
    · simp [segAux]
  | cons p ps ih =>
    intro current j hj
    by_cases hm : isOptionMarker pref p = true
    · simp only [List.filter_cons_of_pos hm] at hj ⊢
      match j with
      | 0 => simp [segAux, hm]
      | j + 1 =>
        simp only [segAux, hm, if_true, List.getD_cons_succ]
        exact ih p j (by simpa using hj)
    · simp only [List.filter_cons_of_neg (by simpa using hm)] at hj ⊢
      simp only [segAux, hm, if_neg, Bool.false_eq_true, if_false]
      match j with
      | 0 =>
        have h0 := ih (current ++ '\n' :: p) 0 (by simpa using hj)
        simp only [List.getD_cons_zero] at h0 ⊢
        exact (pyStrip_prefix_append current ('\n' :: p)).trans h0
      | j + 1 =>
        have hs := ih (current ++ '\n' :: p) (j + 1) (by simpa using hj)
        simpa using hs

theorem segAux_ne_nil (pref : Chars) (parts : List Chars) (current : Chars) :
    segAux pref parts current ≠ [] := by
  have h := segAux_length pref parts current
  intro hnil
  rw [hnil] at h
  simp at h

theorem markerSplit_ne_nil (pref : Chars) (hpref : pref ≠ []) (t : Chars) :
    markerSplit pref t ≠ [] := by
  unfold markerSplit
  cases hl : splitNl t with
  | nil => exact absurd hl (splitNl_ne_nil t)
  | cons l rest =>
    by_cases hm : isOptionMarker pref l = true
    · have hlne : l ≠ [] := isOptionMarker_ne_nil hpref hm
      simp only [markerSplitGo, hm, if_true, ite_true]
      rw [markerSplitGo_eq_segAux pref hpref rest [] l hlne]
      simp [segAux_ne_nil]
    · simp only [markerSplitGo, hm]
      rw [if_neg (by simpa using hm), List.nil_append,
        markerSplitGo_eq_segAux pref hpref rest [] ('\n' :: l) (by simp)]
      simp [segAux_ne_nil]

theorem numberedParts_findIdx_isSome {t : Chars} {n : Nat} {p : Chars}
    (hp : p ∈ numberedParts t n) : (findIdx? p t).isSome = true := by
  unfold numberedParts at hp
  obtain ⟨i, _, hi⟩ := List.mem_filterMap.mp hp
  by_cases hc : containsSub t (natDot i) = true
  · rw [if_pos hc, Option.some_inj] at hi
    subst hi
    simpa [containsSub] using hc
  · rw [if_neg hc] at hi
    exact absurd hi (by simp)

theorem numberedSplitGo_ne_nil (t : Chars) :
    ∀ (parts : List Chars), parts ≠ [] →
      (∀ p ∈ parts, (findIdx? p t).isSome = true) → numberedSplitGo t parts ≠ [] := by
  intro parts
  match parts with
  | [] => intro h; exact absurd rfl h
  | [p] =>
    intro _ hall
    have hs := hall p (by simp)
    obtain ⟨s, hsome⟩ := Option.isSome_iff_exists.mp hs
    simp [numberedSplitGo, hsome]
  | p :: q :: rest =>
    intro _ hall
    obtain ⟨s, hps⟩ := Option.isSome_iff_exists.mp (hall p (by simp))
    obtain ⟨e, hqe⟩ := Option.isSome_iff_exists.mp (hall q (by simp))
    simp [numberedSplitGo, hps, hqe]

theorem one_mem_numberedParts {t : Chars} {n : Nat} (hn : 1 ≤ n)
    (h1 : containsSub t ("1.".data) = true) : ("1.".data : Chars) ∈ numberedParts t n := by
  unfold numberedParts
  apply List.mem_filterMap.mpr
  refine ⟨1, ?_, ?_⟩
  · simp only [List.mem_map, List.mem_range]
    exact ⟨0, by omega, by norm_num⟩
  · have : natDot 1 = ("1.".data : Chars) := by decide
    rw [this, if_pos h1]

theorem splitResponse_ne_nil (t : Chars) (n : Nat) (hn : 1 ≤ n) :
    splitResponse t n ≠ [] := by
  unfold splitResponse
  by_cases h1 : containsSub (pyUpper t) ("OPTION 1".data) = true
  · rw [if_pos h1]
    exact markerSplit_ne_nil _ (by decide) t
  · rw [if_neg h1]
    by_cases h2 : containsSub (pyUpper t) ("DESIGN OPTION 1".data) = true
    · rw [if_pos h2]
      exact markerSplit_ne_nil _ (by decide) t
    · rw [if_neg h2]
      by_cases h3 : (containsSub t ("1.".data) && containsSub t ("2.".data)) = true
      · rw [if_pos h3]
        have hone : ("1.".data : Chars) ∈ numberedParts t n :=
          one_mem_numberedParts hn (Bool.and_elim_left h3)
        exact numberedSplitGo_ne_nil t (numberedParts t n)
          (List.ne_nil_of_mem hone) (fun p hp => numberedParts_findIdx_isSome hp)
      · rw [if_neg h3]
        simp

theorem padGo_length (first : Chars) :
    ∀ (k : Nat) (options : List Chars), (padGo first k options).length = options.length + k := by
  intro k
  induction k with
  | zero => intro options; simp [padGo]
  | succ m ih =>
    intro options
    rw [padGo, ih]
    simp
    omega

theorem padTruncate_length (n : Nat) (options : List Chars) (h : options ≠ []) :
    (padTruncate n options).length = n := by
  unfold padTruncate
  rw [List.length_take, padGo_length]
  have : 1 ≤ options.length := List.length_pos.mpr h
  omega

theorem generateOptionsFromText_length (t : Chars) (n : Nat) (hn : 1 ≤ n) :
    (generateOptionsFromText t n).length = n :=
  padTruncate_length n (splitResponse t n) (splitResponse_ne_nil t n hn)

end App

/-- Claim C4 (amended).  For requested count N = 5: (a) for a text whose
first line is itself an `OPTION n:` marker and that contains exactly 5
well-formed line-initial `OPTION n:` markers (with the substring
`OPTION 1` present), the heuristic returns exactly 5 segments, the j-th
beginning with the j-th marker line (stripped); (b) a text with none of
the three marker patterns produces exactly 1 segment before padding;
(c) for every input text, after padding and truncation, exactly 5
segments are returned.  The original claim's part (a) fails when text
precedes the first marker (the preamble becomes an extra segment). -/
theorem c4_segmentation_amended :
    (∀ t : Chars,
      App.isOptionMarker ("OPTION ".data) ((splitNl t).headD []) = true →
      (splitNl t).countP (App.isOptionMarker ("OPTION ".data)) = 5 →
      containsSub (pyUpper t) ("OPTION 1".data) = true →
      (App.splitResponse t 5).length = 5 ∧
      App.generateOptionsFromText t 5 = App.splitResponse t 5 ∧
      (∀ j, j < 5 →
        pyStrip (((splitNl t).filter (App.isOptionMarker ("OPTION ".data))).getD j []) <+:
          (App.splitResponse t 5).getD j [])) ∧
    (∀ t : Chars,
      containsSub (pyUpper t) ("OPTION 1".data) = false →
      containsSub (pyUpper t) ("DESIGN OPTION 1".data) = false →
      (containsSub t ("1.".data) && containsSub t ("2.".data)) = false →
      App.splitResponse t 5 = [t]) ∧
    (∀ t : Chars, (App.generateOptionsFromText t 5).length = 5) := by
  refine ⟨?_, ?_, ?_⟩
  · intro t hhead hcount hguard
    cases hl : splitNl t with
    | nil => exact absurd hl (splitNl_ne_nil t)
    | cons l rest =>
      rw [hl] at hhead hcount
      simp only [List.headD_cons] at hhead
      have hlne : l ≠ [] := App.isOptionMarker_ne_nil (by decide) hhead
      have hms : App.splitResponse t 5 = App.segAux ("OPTION ".data) rest l := by
        unfold App.splitResponse
        rw [if_pos hguard]
        unfold App.markerSplit
        rw [hl]
        simp only [App.markerSplitGo, hhead, if_true, ite_true]
        rw [App.markerSplitGo_eq_segAux _ (by decide) rest [] l hlne]
        simp
      have hcr : rest.countP (App.isOptionMarker ("OPTION ".data)) = 4 := by
        rw [List.countP_cons, hhead, if_pos rfl] at hcount
        omega
      have hlen : (App.splitResponse t 5).length = 5 := by
        rw [hms, App.segAux_length, hcr]
      refine ⟨hlen, ?_, ?_⟩
      · unfold App.generateOptionsFromText App.padTruncate
        rw [hlen]
        simp only [Nat.sub_self, App.padGo]
        exact List.take_of_length_le (le_of_eq hlen)
      · intro j hj
        rw [List.filter_cons_of_pos hhead, hms]
        apply App.segAux_getD_prefix
        have : (rest.filter (App.isOptionMarker ("OPTION ".data))).length = 4 := by
          rw [← hcr]
          exact (List.countP_eq_length_filter _ _).symm
        simp only [List.length_cons, this]
        omega
  · intro t h1 h2 h3
    unfold App.splitResponse
    rw [if_neg (by simp [h1]), if_neg (by simp [h2]), if_neg (by simp [h3])]
  · intro t
    exact App.generateOptionsFromText_length t 5 (by norm_num)

/-- Concrete 5-marker reply used to instantiate `c4_segmentation_amended`. -/
def c4SampleText : Chars :=
  "OPTION 1: A\nOPTION 2: B\nOPTION 3: C\nOPTION 4: D\nOPTION 5: E".data

theorem c4_segmentation_amended_witness :
    ((App.splitResponse c4SampleText 5).length = 5 ∧
      App.generateOptionsFromText c4SampleText 5 = App.splitResponse c4SampleText 5 ∧
      pyStrip (((splitNl c4SampleText).filter
          (App.isOptionMarker ("OPTION ".data))).getD 0 []) <+:
        (App.splitResponse c4SampleText 5).getD 0 []) ∧
    App.splitResponse "plain text".data 5 = ["plain text".data] ∧
    (App.generateOptionsFromText "plain text".data 5).length = 5 := by
  obtain ⟨ha, hb, hc⟩ := c4_segmentation_amended
  obtain ⟨h1, h2, h3⟩ := ha c4SampleText (by decide) (by decide) (by decide)
  exact ⟨⟨h1, h2, h3 0 (by decide)⟩,
    hb "plain text".data (by decide) (by decide) (by decide), hc "plain text".data⟩

/-- Text refuting claim C4 as stated: it contains exactly 5 well-formed
line-initial `OPTION n:` markers, but a preamble line precedes them. -/
def c4PreambleText : Chars :=
  "Intro\nOPTION 1: A\nOPTION 2: B\nOPTION 3: C\nOPTION 4: D\nOPTION 5: E".data

/-- Counterexample to claim C4 as stated: on a text with exactly 5
well-formed `OPTION n:` markers the heuristic yields 6 segments (the
preamble becomes one), and the first returned segment is the preamble,
not the first marker's segment. -/
theorem c4_counterexample :
    (splitNl c4PreambleText).countP (App.isOptionMarker ("OPTION ".data)) = 5 ∧
    (App.splitResponse c4PreambleText 5).length = 6 ∧
    (App.generateOptionsFromText c4PreambleText 5).getD 0 [] = "Intro".data := by
  decide

/-- Claim C10 (amended).  For every requested count of at least 1,
`generate_design_options` never returns an empty list: on a successful
API call it returns exactly that many strings, and when an exception
occurs it returns the single-element list whose element is the message
prefixed with `Error generating design: `.  (At a requested count of 0
a successful call returns the empty list, so the bound is required.) -/
theorem c10_generate_options_amended :
    (∀ (t : Chars) (n : Nat), 1 ≤ n →
      (App.generate_design_options (App.ApiResult.ok t) n).length = n ∧
      App.generate_design_options (App.ApiResult.ok t) n ≠ []) ∧
    (∀ (msg : Chars) (n : Nat),
      App.generate_design_options (App.ApiResult.err msg) n =
        ["Error generating design: ".data ++ msg]) := by
  constructor
  · intro t n hn
    have hlen : (App.generate_design_options (App.ApiResult.ok t) n).length = n :=
      App.generateOptionsFromText_length t n hn
    refine ⟨hlen, ?_⟩
    intro hnil
    rw [hnil] at hlen
    simp at hlen
    omega
  · intro msg n
    rfl

theorem c10_generate_options_amended_witness :
    (App.generate_design_options (App.ApiResult.ok "some reply".data) 5).length = 5 ∧
    App.generate_design_options (App.ApiResult.ok "some reply".data) 5 ≠ [] ∧
    App.generate_design_options (App.ApiResult.err "boom".data) 5 =
      ["Error generating design: boom".data] := by
  obtain ⟨hok, herr⟩ := c10_generate_options_amended
  obtain ⟨h1, h2⟩ := hok "some reply".data 5 (by norm_num)
  refine ⟨h1, h2, ?_⟩
  rw [herr "boom".data 5]
  decide

/-- Counterexample to claim C10 as stated: with requested count 0 a
successful call returns the empty list. -/
theorem c10_counterexample :
    App.generate_design_options (App.ApiResult.ok "hello".data) 0 = [] := by
  decide

namespace Remover

/-!
Embedding of `image_remover.py`.  The OpenAI vision call, the base64
encoding of the file, and the filesystem are external effects; each image
carries an oracle describing how those effects would unfold for it.
-/

/-- How the evaluation of one image unfolds (`evaluate_image`, lines 36-129):
the reply contains `YES`; the reply contains `NO` (with the follow-up
reason call succeeding); the reply is neither (`unclear`); the API call
raises an exception; or `encode_image` already failed and returned `None`. -/
inductive EvalOutcome where
  | good : EvalOutcome
  | bad : Chars → EvalOutcome
  | unclear : Chars → EvalOutcome
  | apiError : Chars → EvalOutcome
  | encodeFail : EvalOutcome
deriving DecidableEq

/-- Embedding of `evaluate_image` (lines 36-129): the returned pair
`(is_good_image, reason)`.  Note that an exception raised by the API call
is caught at line 127 inside `evaluate_image` itself, which then returns
`(False, "API error: ...")`; the function never raises. -/
def evaluate_image : EvalOutcome → Bool × Chars
  | .encodeFail => (false, "Failed to encode image".data)
  | .good => (true, "Good quality interior design image".data)
  | .bad detail => (false, detail)
  | .unclear resp => (false, "Unclear evaluation: ".data ++ resp)
  | .apiError msg => (false, "API error: ".data ++ msg)

/-- Number of chat-completion requests `evaluate_image` issues for one
image: one for the verdict, plus one follow-up only on a clear `NO`.
No request is ever reissued (there is no retry logic). -/
def apiCallCount : EvalOutcome → Nat
  | .good => 1
  | .bad _ => 2
  | .unclear _ => 1
  | .apiError _ => 1
  | .encodeFail => 0

/-- One image on disk: whether a metadata sidecar (`.txt`) exists, how its
evaluation unfolds, and whether `image_file.unlink()` would succeed if
attempted (lines 228-238 catch filesystem errors on delete). -/
structure ImgFile where
  hasSidecar : Bool
  outcome : EvalOutcome
  unlinkOk : Bool
deriving DecidableEq

/-- What `process_directories` did to one image's files. -/
structure ImgAction where
  file : ImgFile
  deletedImage : Bool
  deletedSidecar : Bool
deriving DecidableEq

/-- Per-image branch of `process_directories` (lines 210-243): a kept image
is never touched; a rejected image is deleted (image, then sidecar if it
exists) only when not in dry-run mode and the unlink does not raise. -/
def imgAction (dryRun : Bool) (img : ImgFile) : ImgAction :=
  if (evaluate_image img.outcome).1 then ⟨img, false, false⟩
  else if dryRun then ⟨img, false, false⟩
  else if img.unlinkOk then ⟨img, true, img.hasSidecar⟩
  else ⟨img, false, false⟩

/-- Counters of the `stats` dictionary (global or per-style). -/
structure StyleStats where
  total : Nat
  kept : Nat
  removed : Nat
  errors : Nat
deriving DecidableEq

/-- Per-style image loop of lines 198-243.  `evaluate_image` never raises
(its body is wrapped in its own `try`), so the outer handler at lines
240-243 is unreachable; the `errors` counter is only incremented by the
inner handler for a failing unlink (lines 235-238). -/
def processImages (dryRun : Bool) : List ImgFile → StyleStats × List ImgAction
  | [] => (⟨0, 0, 0, 0⟩, [])
  | img :: rest =>
      let isGood := (evaluate_image img.outcome).1
      let errored := !isGood && !dryRun && !img.unlinkOk
      let (s, acts) := processImages dryRun rest
      (⟨s.total + 1,
        s.kept + (if isGood then 1 else 0),
        s.removed + (if isGood then 0 else 1),
        s.errors + (if errored then 1 else 0)⟩,
       imgAction dryRun img :: acts)

/-- One style directory with its image files (in glob order). -/
structure StyleDir where
  name : Chars
  images : List ImgFile
deriving DecidableEq

/-- Truncation of lines 193-195: when a positive limit would be exceeded,
only the first `limit - total_processed` images of the directory are kept
(the CLI only produces nonnegative limits; `--limit 0` and no limit are
both falsy in `if limit`). -/
def limitImages (limit : Option Nat) (totalSoFar : Nat) (images : List ImgFile) :
    List ImgFile :=
  match limit with
  | none => images
  | some l => if 0 < l ∧ l < totalSoFar + images.length then images.take (l - totalSoFar)
              else images

/-- Global `stats` counters (lines 149-155; `by_style` is kept alongside). -/
structure Stats where
  totalProcessed : Nat
  kept : Nat
  removed : Nat
  errors : Nat
deriving DecidableEq

/-- Directory loop of lines 170-248, threading the global counters. -/
def processDirsGo (dryRun : Bool) (limit : Option Nat) :
    List StyleDir → Stats → Stats × List (Chars × StyleStats) × List ImgAction
  | [], stats => (stats, [], [])
  | d :: ds, stats =>
      let imgs := limitImages limit stats.totalProcessed d.images
      let (ss, acts) := processImages dryRun imgs
      let stats' : Stats :=
        ⟨stats.totalProcessed + ss.total, stats.kept + ss.kept,
          stats.removed + ss.removed, stats.errors + ss.errors⟩
      let (finalStats, byStyle, moreActs) := processDirsGo dryRun limit ds stats'
      (finalStats, (d.name, ss) :: byStyle, acts ++ moreActs)

/-- Embedding of `process_directories` (lines 131-269): final counters,
per-style counters, and the action taken on each processed image. -/
def process_directories (dryRun : Bool) (limit : Option Nat) (dirs : List StyleDir) :
    Stats × List (Chars × StyleStats) × List ImgAction :=
  processDirsGo dryRun limit dirs ⟨0, 0, 0, 0⟩

theorem imgAction_file (dryRun : Bool) (img : ImgFile) :
    (imgAction dryRun img).file = img := by
  unfold imgAction
  split
  · rfl
  · split
    · rfl
    · split
      · rfl
      · rfl

theorem mem_processImages {dryRun : Bool} :
    ∀ {l : List ImgFile} {a : ImgAction}, a ∈ (processImages dryRun l).2 →
      ∃ img ∈ l, a = imgAction dryRun img := by
  intro l
  induction l with
  | nil => intro a ha; simp [processImages] at ha
  | cons img rest ih =>
    intro a ha
    simp only [processImages] at ha
    rcases List.mem_cons.mp ha with h | h
    · exact ⟨img, by simp, h⟩
    · obtain ⟨i, hi, hia⟩ := ih h
      exact ⟨i, by simp [hi], hia⟩

theorem mem_processDirsGo {dryRun : Bool} {limit : Option Nat} :
    ∀ {ds : List StyleDir} {stats : Stats} {a : ImgAction},
      a ∈ (processDirsGo dryRun limit ds stats).2.2 →
      ∃ img : ImgFile, a = imgAction dryRun img := by
  intro ds
  induction ds with
  | nil => intro stats a ha; simp [processDirsGo] at ha
  | cons d rest ih =>
    intro stats a ha
    simp only [processDirsGo] at ha
    rcases List.mem_append.mp ha with h | h
    · obtain ⟨img, _, hia⟩ := mem_processImages h
      exact ⟨img, hia⟩
    · exact ih h

theorem mem_process_directories {dryRun : Bool} {limit : Option Nat}
    {dirs : List StyleDir} {a : ImgAction}
    (ha : a ∈ (process_directories dryRun limit dirs).2.2) :
    ∃ img : ImgFile, a = imgAction dryRun img :=
  mem_processDirsGo ha

end Remover

/-- Claim C1.  For every image processed by the curation run, if dry-run
mode is enabled, no file is deleted: neither the image file nor its
metadata sidecar, regardless of the classifier outcome. -/
theorem c1_dry_run_never_deletes :
    ∀ (limit : Option Nat) (dirs : List Remover.StyleDir) (a : Remover.ImgAction),
      a ∈ (Remover.process_directories true limit dirs).2.2 →
      a.deletedImage = false ∧ a.deletedSidecar = false := by
  intro limit dirs a ha
  obtain ⟨img, rfl⟩ := Remover.mem_process_directories ha
  unfold Remover.imgAction
  split
  · exact ⟨rfl, rfl⟩
  · simp

/-- Sample directory for the C1 witness: one image the classifier rejects. -/
def c1SampleDir : Remover.StyleDir :=
  ⟨"style".data, [⟨true, Remover.EvalOutcome.bad "blurry".data, true⟩]⟩

theorem c1_dry_run_never_deletes_witness :
    ((Remover.process_directories true none [c1SampleDir]).2.2.headD
        ⟨⟨false, Remover.EvalOutcome.good, false⟩, false, false⟩).deletedImage = false ∧
    ((Remover.process_directories true none [c1SampleDir]).2.2.headD
        ⟨⟨false, Remover.EvalOutcome.good, false⟩, false, false⟩).deletedSidecar = false :=
  c1_dry_run_never_deletes none [c1SampleDir] _ (by decide)

/-- Claim C2 (amended).  An exception raised by the vision-API call during
curation is caught and logged inside `evaluate_image` (no retry is issued:
only the one failed request is made), but the image is then treated as a
reject, not as an error: it is counted in `removed` (not `kept`), and in
destructive mode its file and sidecar are deleted like any rejected
image's.  The separate `errors` counter records only failing deletions. -/
theorem c2_api_error_treated_as_reject :
    ∀ (m : Chars) (img : Remover.ImgFile),
      img.outcome = Remover.EvalOutcome.apiError m →
      Remover.evaluate_image img.outcome = (false, "API error: ".data ++ m) ∧
      Remover.apiCallCount img.outcome = 1 ∧
      (Remover.processImages false [img]).1.removed = 1 ∧
      (Remover.processImages false [img]).1.kept = 0 ∧
      (Remover.processImages false [img]).1.errors = (if img.unlinkOk then 0 else 1) ∧
      (img.unlinkOk = true →
        (Remover.imgAction false img).deletedImage = true ∧
        (Remover.imgAction false img).deletedSidecar = img.hasSidecar) := by
  intro m img h
  refine ⟨by rw [h]; rfl, by rw [h]; rfl, ?_, ?_, ?_, ?_⟩
  · simp [Remover.processImages, Remover.evaluate_image, h]
  · simp [Remover.processImages, Remover.evaluate_image, h]
  · cases hu : img.unlinkOk <;>
      simp [Remover.processImages, Remover.evaluate_image, h, hu]
  · intro hok
    simp [Remover.imgAction, Remover.evaluate_image, h, hok]

theorem c2_api_error_treated_as_reject_witness :
    Remover.evaluate_image (Remover.ImgFile.mk true
        (Remover.EvalOutcome.apiError "timeout".data) true).outcome =
      (false, "API error: timeout".data) ∧
    Remover.apiCallCount (Remover.ImgFile.mk true
        (Remover.EvalOutcome.apiError "timeout".data) true).outcome = 1 ∧
    (Remover.processImages false
        [⟨true, Remover.EvalOutcome.apiError "timeout".data, true⟩]).1.removed = 1 ∧
    (Remover.imgAction false
        ⟨true, Remover.EvalOutcome.apiError "timeout".data, true⟩).deletedImage = true := by
  obtain ⟨h1, h2, h3, _, _, h6⟩ :=
    c2_api_error_treated_as_reject "timeout".data
      ⟨true, Remover.EvalOutcome.apiError "timeout".data, true⟩ rfl
  exact ⟨by simpa using h1, h2, h3, (h6 rfl).1⟩

/-- Directory refuting claim C2 as stated: one image whose API call raises. -/
def c2SampleDir : Remover.StyleDir :=
  ⟨"style".data, [⟨true, Remover.EvalOutcome.apiError "timeout".data, true⟩]⟩

/-- Counterexample to claim C2 as stated: in destructive mode, an image
whose vision-API call raised is counted in `removed` (the `errors` counter
stays 0) and both its file and sidecar are deleted, not left untouched. -/
theorem c2_counterexample :
    (Remover.process_directories false none [c2SampleDir]).1.removed = 1 ∧
    (Remover.process_directories false none [c2SampleDir]).1.errors = 0 ∧
    (Remover.process_directories false none [c2SampleDir]).1.kept = 0 ∧
    ((Remover.process_directories false none [c2SampleDir]).2.2.headD
        ⟨⟨false, Remover.EvalOutcome.good, false⟩, false, false⟩).deletedImage = true ∧
    ((Remover.process_directories false none [c2SampleDir]).2.2.headD
        ⟨⟨false, Remover.EvalOutcome.good, false⟩, false, false⟩).deletedSidecar = true := by
  decide

/-- Claim C3.  In destructive mode, a rejected image has its file deleted
and its sidecar deleted exactly when the sidecar exists (provided the
unlink does not raise a filesystem error); an accepted image and its
sidecar are never deleted. -/
theorem c3_destructive_mode_deletes :
    ∀ (limit : Option Nat) (dirs : List Remover.StyleDir) (a : Remover.ImgAction),
      a ∈ (Remover.process_directories false limit dirs).2.2 →
      (a.file.outcome = Remover.EvalOutcome.good →
        a.deletedImage = false ∧ a.deletedSidecar = false) ∧
      (∀ r, a.file.outcome = Remover.EvalOutcome.bad r → a.file.unlinkOk = true →
        a.deletedImage = true ∧ a.deletedSidecar = a.file.hasSidecar) := by
  intro limit dirs a ha
  obtain ⟨img, rfl⟩ := Remover.mem_process_directories ha
  rw [Remover.imgAction_file]
  constructor
  · intro hg
    simp [Remover.imgAction, Remover.evaluate_image, hg]
  · intro r hb hok
    simp [Remover.imgAction, Remover.evaluate_image, hb, hok]

/-- Sample directory for the C3 witness: one accepted and one rejected image. -/
def c3SampleDir : Remover.StyleDir :=
  ⟨"style".data,
    [⟨true, Remover.EvalOutcome.good, true⟩,
     ⟨true, Remover.EvalOutcome.bad "cluttered".data, true⟩]⟩

theorem c3_destructive_mode_deletes_witness :
    (((Remover.process_directories false none [c3SampleDir]).2.2.getD 0
        ⟨⟨false, Remover.EvalOutcome.good, false⟩, false, false⟩).deletedImage = false ∧
      ((Remover.process_directories false none [c3SampleDir]).2.2.getD 0
        ⟨⟨false, Remover.EvalOutcome.good, false⟩, false, false⟩).deletedSidecar = false) ∧
    (((Remover.process_directories false none [c3SampleDir]).2.2.getD 1
        ⟨⟨false, Remover.EvalOutcome.good, false⟩, false, false⟩).deletedImage = true ∧
      ((Remover.process_directories false none [c3SampleDir]).2.2.getD 1
        ⟨⟨false, Remover.EvalOutcome.good, false⟩, false, false⟩).deletedSidecar =
        ((Remover.process_directories false none [c3SampleDir]).2.2.getD 1
          ⟨⟨false, Remover.EvalOutcome.good, false⟩, false, false⟩).file.hasSidecar) := by
  have h0 := c3_destructive_mode_deletes none [c3SampleDir]
    ((Remover.process_directories false none [c3SampleDir]).2.2.getD 0
      ⟨⟨false, Remover.EvalOutcome.good, false⟩, false, false⟩) (by decide)
  have h1 := c3_destructive_mode_deletes none [c3SampleDir]
    ((Remover.process_directories false none [c3SampleDir]).2.2.getD 1
      ⟨⟨false, Remover.EvalOutcome.good, false⟩, false, false⟩) (by decide)
  exact ⟨h0.1 (by decide), h1.2 "cluttered".data (by decide) (by decide)⟩

namespace Downloader

/-!
Embedding of `style_image_downloader.py`, `download_pexels_images`
(lines 233-363).  The Pexels search responses and the per-photo download
and decode are external effects supplied by an oracle; `random.shuffle`
is modelled by letting the oracle return the photo list already in its
served (post-shuffle) order; the API key is taken as validated (an
invalid key raises before the loop and downloads nothing). -/

/-- Minimum width/height in pixels (line 27). -/
def MIN_IMAGE_SIZE : Nat := 400

/-- Per-style image quota (line 26). -/
def IMAGES_PER_STYLE : Nat := 70

/-- One photo entry of a Pexels search response.  `metaWidth`/`metaHeight`
are the dimensions the API metadata claims (never consulted by the code);
`fetch` is the result of downloading and decoding `photo["src"]["large"]`:
`none` when the GET is non-200 or any exception is raised, otherwise the
actual decoded pixel dimensions reported by `img.size`. -/
structure Photo where
  id : Nat
  metaWidth : Nat
  metaHeight : Nat
  fetch : Option (Nat × Nat)
deriving DecidableEq

/-- Search oracle: the photo list served for an encoded query, or `none`
for a non-200 status or a raised exception (lines 285-292, 357-358). -/
structure SearchEnv where
  results : Chars → Option (List Photo)

/-- An image file written to disk together with its attribution sidecar
(lines 332-345; the two are always written together on acceptance). -/
structure Saved where
  keyword : Chars
  photoId : Nat
  width : Nat
  height : Nat
deriving DecidableEq

/-- Model of Python `search_query.replace(" ", "%20")` (line 279). -/
def encodeQuery : Chars → Chars
  | [] => []
  | c :: cs => if c = ' ' then '%' :: '2' :: '0' :: encodeQuery cs
               else c :: encodeQuery cs

/-- Photo loop of lines 311-351: each photo is skipped on fetch failure,
saved with its sidecar when both decoded dimensions reach the minimum,
and the loop stops early once `max_images` is reached. -/
def downloadPhotos (maxImages : Nat) (keyword : Chars) :
    List Photo → Nat → List Saved → Nat × List Saved
  | [], total, saved => (total, saved)
  | photo :: rest, total, saved =>
      if maxImages ≤ total then (total, saved)
      else
        match photo.fetch with
        | none => downloadPhotos maxImages keyword rest total saved
        | some (w, h) =>
            if MIN_IMAGE_SIZE ≤ w ∧ MIN_IMAGE_SIZE ≤ h then
              downloadPhotos maxImages keyword rest (total + 1)
                (saved ++ [⟨keyword, photo.id, w, h⟩])
            else downloadPhotos maxImages keyword rest total saved

/-- Query loop of lines 275-358: skip to the next query on a failed or
empty search; otherwise take at most `images_per_keyword - total` photos,
download them, and if anything has ever been downloaded break to the next
keyword.  Note the loop guard compares the running per-style total with
the per-keyword allowance `images_per_keyword`. -/
def tryQueries (env : SearchEnv) (keyword : Chars) (imagesPerKeyword maxImages : Nat) :
    List Chars → Nat → List Saved → Nat × List Saved
  | [], total, saved => (total, saved)
  | q :: qs, total, saved =>
      if imagesPerKeyword ≤ total then (total, saved)
      else
        match env.results (encodeQuery q) with
        | none => tryQueries env keyword imagesPerKeyword maxImages qs total saved
        | some photos =>
            if photos = [] then tryQueries env keyword imagesPerKeyword maxImages qs total saved
            else
              let remaining := imagesPerKeyword - total
              let (total', saved') :=
                downloadPhotos maxImages keyword (photos.take remaining) total saved
              if 0 < total' then (total', saved')
              else tryQueries env keyword imagesPerKeyword maxImages qs total' saved'

/-- A style record as consumed by `download_pexels_images`. -/
structure StyleRec where
  name : Chars
  searchKeywords : List Chars

/-- Keyword loop of lines 267-358 with the three query templates of
lines 269-273. -/
def downloadKeywords (env : SearchEnv) (styleName : Chars)
    (imagesPerKeyword maxImages : Nat) :
    List Chars → Nat → List Saved → Nat × List Saved
  | [], total, saved => (total, saved)
  | kw :: kws, total, saved =>
      let queries : List Chars :=
        [kw ++ ' ' :: styleName ++ " interior".data,
         styleName ++ ' ' :: kw ++ " room".data,
         kw ++ " interior design ".data ++ styleName]
      let res := tryQueries env kw imagesPerKeyword maxImages queries total saved
      downloadKeywords env styleName imagesPerKeyword maxImages kws res.1 res.2

/-- Embedding of `download_pexels_images` (lines 233-363): returns the
number of images downloaded for the style and the files written. -/
def download_pexels_images (env : SearchEnv) (style : StyleRec)
    (maxImages : Nat := IMAGES_PER_STYLE) : Nat × List Saved :=
  if style.searchKeywords = [] then (0, [])
  else
    let imagesPerKeyword := maxImages / style.searchKeywords.length
    downloadKeywords env style.name imagesPerKeyword maxImages
      style.searchKeywords 0 []

/-- Every file the photo loop writes records decoded dimensions meeting
the minimum; the invariant is preserved from the incoming accumulator. -/
theorem downloadPhotos_saved_min (maxImages : Nat) (keyword : Chars) :
    ∀ (photos : List Photo) (total : Nat) (saved : List Saved),
      (∀ s ∈ saved, MIN_IMAGE_SIZE ≤ s.width ∧ MIN_IMAGE_SIZE ≤ s.height) →
      ∀ s ∈ (downloadPhotos maxImages keyword photos total saved).2,
        MIN_IMAGE_SIZE ≤ s.width ∧ MIN_IMAGE_SIZE ≤ s.height := by
  intro photos
  induction photos with
  | nil => intro total saved hinv; exact hinv
  | cons photo rest ih =>
    intro total saved hinv
    unfold downloadPhotos
    split
    · exact hinv
    · match hf : photo.fetch with
      | none => exact ih total saved hinv
      | some (w, h) =>
        simp only
        split
        · rename_i hwh
          apply ih
          intro s hs
          rcases List.mem_append.mp hs with h1 | h1
          · exact hinv s h1
          · rcases List.mem_singleton.mp h1 with rfl
            exact hwh
        · exact ih total saved hinv

theorem tryQueries_saved_min (env : SearchEnv) (keyword : Chars)
    (imagesPerKeyword maxImages : Nat) :
    ∀ (qs : List Chars) (total : Nat) (saved : List Saved),
      (∀ s ∈ saved, MIN_IMAGE_SIZE ≤ s.width ∧ MIN_IMAGE_SIZE ≤ s.height) →
      ∀ s ∈ (tryQueries env keyword imagesPerKeyword maxImages qs total saved).2,
        MIN_IMAGE_SIZE ≤ s.width ∧ MIN_IMAGE_SIZE ≤ s.height := by
  intro qs
  induction qs with
  | nil => intro total saved hinv; exact hinv
  | cons q rest ih =>
    intro total saved hinv
    unfold tryQueries
    split
    · exact hinv
    · match hr : env.results (encodeQuery q) with
      | none => exact ih total saved hinv
      | some photos =>
        simp only
        split
        · exact ih total saved hinv
        · have hdl := downloadPhotos_saved_min maxImages keyword
            (photos.take (imagesPerKeyword - total)) total saved hinv
          split
          · exact hdl
          · exact ih _ _ hdl

theorem downloadKeywords_saved_min (env : SearchEnv) (styleName : Chars)
    (imagesPerKeyword maxImages : Nat) :
    ∀ (kws : List Chars) (total : Nat) (saved : List Saved),
      (∀ s ∈ saved, MIN_IMAGE_SIZE ≤ s.width ∧ MIN_IMAGE_SIZE ≤ s.height) →
      ∀ s ∈ (downloadKeywords env styleName imagesPerKeyword maxImages kws total saved).2,
        MIN_IMAGE_SIZE ≤ s.width ∧ MIN_IMAGE_SIZE ≤ s.height := by
  intro kws
  induction kws with
  | nil => intro total saved hinv; exact hinv
  | cons kw rest ih =>
    intro total saved hinv
    unfold downloadKeywords
    apply ih
    exact tryQueries_saved_min env kw imagesPerKeyword maxImages _ total saved hinv

end Downloader

/-- Claim C6.  Every image file (and attribution sidecar) written by the
acquisition component records decoded pixel dimensions of at least the
minimum resolution: a photo whose decoded dimensions fall below the
threshold is never saved, regardless of the dimensions the API metadata
claimed (the metadata fields are unconstrained here and never consulted). -/
theorem c6_min_resolution_filter :
    ∀ (env : Downloader.SearchEnv) (style : Downloader.StyleRec) (maxImages : Nat)
      (s : Downloader.Saved),
      s ∈ (Downloader.download_pexels_images env style maxImages).2 →
      Downloader.MIN_IMAGE_SIZE ≤ s.width ∧ Downloader.MIN_IMAGE_SIZE ≤ s.height := by
  intro env style maxImages s hs
  unfold Downloader.download_pexels_images at hs
  split at hs
  · simp at hs
  · exact Downloader.downloadKeywords_saved_min env style.name _ maxImages
      style.searchKeywords 0 [] (by simp) s hs

/-- Search environment for the C6 witness: the first served photo's
metadata claims 5000 times 5000 but it decodes to 300 times 800 (below
the width minimum); the second claims 100 times 100 but decodes to
500 times 450. -/
def c6SampleEnv : Downloader.SearchEnv :=
  ⟨fun _ => some [⟨1, 5000, 5000, some (300, 800)⟩, ⟨2, 100, 100, some (500, 450)⟩]⟩

def c6SampleStyle : Downloader.StyleRec :=
  ⟨"modern".data, ["sofa".data]⟩

theorem c6_min_resolution_filter_witness :
    (Downloader.MIN_IMAGE_SIZE ≤
        ((Downloader.download_pexels_images c6SampleEnv c6SampleStyle 70).2.headD
          ⟨[], 0, 0, 0⟩).width ∧
      Downloader.MIN_IMAGE_SIZE ≤
        ((Downloader.download_pexels_images c6SampleEnv c6SampleStyle 70).2.headD
          ⟨[], 0, 0, 0⟩).height) ∧
    (Downloader.download_pexels_images c6SampleEnv c6SampleStyle 70).2 =
      [⟨"sofa".data, 2, 500, 450⟩] :=
  ⟨c6_min_resolution_filter c6SampleEnv c6SampleStyle 70 _ (by decide), by decide⟩

/-- Photos served for the C5 failing input: every query returns 30
qualifying photos (decoded 800 times 600). -/
def c5SamplePhotos : List Downloader.Photo :=
  (List.range 30).map (fun i => ⟨i, 2000, 1500, some (800, 600)⟩)

def c5SampleEnv : Downloader.SearchEnv :=
  ⟨fun _ => some c5SamplePhotos⟩

/-- A style with the usual 5 search keywords. -/
def c5SampleStyle : Downloader.StyleRec :=
  ⟨"modern".data,
    ["minimalist".data, "scandinavian".data, "loft".data, "rustic".data, "boho".data]⟩

/-- Claim C5 (code bug).  With 5 keywords, a per-style quota of 70 and an
abundance of qualifying photos on every query, the download loop stops
after 14 = 70 / 5 images: the guard and the `remaining` slice compare the
running per-style total `total_downloaded` against the per-keyword
allowance `images_per_keyword` (lines 276 and 307), so the per-style
quota `max_images` is never approached. -/
theorem c5_per_keyword_quota_bug :
    (Downloader.download_pexels_images c5SampleEnv c5SampleStyle 70).1 = 14 ∧
    (Downloader.download_pexels_images c5SampleEnv c5SampleStyle 70).2.length = 14 := by
  decide

namespace App

/-!
Embedding of the interactive flow of `streamlit_app.py` (`main`,
lines 306-503) and of `select_random_images` (lines 83-108).  The
`random.shuffle` calls are modelled by quantifying over arbitrary input
orders; the session dictionary is a record in which `Option` fields model
key presence, with the five preference keys (created and deleted
together) grouped in one optional sub-record.
-/

/-- A style as loaded by `load_styles` (name, description, image paths). -/
structure LoadedStyle where
  name : Chars
  description : Chars
  imagePaths : List Chars
deriving DecidableEq

/-- The per-image entry stored in the `style_info` dictionary (lines 103-106). -/
structure StyleInfoEntry where
  name : Chars
  description : Chars
deriving DecidableEq

/-- Inner loop of lines 100-106: append each selected image while the
result is still short of `num_images`, recording its style entry. -/
def addImgs (numImages : Nat) (entry : StyleInfoEntry) :
    List Chars → List Chars → List (Chars × StyleInfoEntry) →
    List Chars × List (Chars × StyleInfoEntry)
  | [], acc, info => (acc, info)
  | img :: imgs, acc, info =>
      if acc.length < numImages then
        addImgs numImages entry imgs (acc ++ [img]) (info ++ [(img, entry)])
      else addImgs numImages entry imgs acc info

/-- Style loop of lines 90-106: stop once enough images were collected,
skip styles without images, and take up to 2 images from each style. -/
def selectGo (numImages : Nat) :
    List LoadedStyle → List Chars → List (Chars × StyleInfoEntry) →
    List Chars × List (Chars × StyleInfoEntry)
  | [], acc, info => (acc, info)
  | style :: rest, acc, info =>
      if numImages ≤ acc.length then (acc, info)
      else if style.imagePaths = [] then selectGo numImages rest acc info
      else
        let selected := style.imagePaths.take (min 2 style.imagePaths.length)
        let res := addImgs numImages ⟨style.name, style.description⟩ selected acc info
        selectGo numImages rest res.1 res.2

/-- Embedding of `select_random_images` (lines 83-108); both shuffles are
modelled by taking the style list and each style's image list in an
arbitrary (already shuffled) order. -/
def select_random_images (styles : List LoadedStyle) (numImages : Nat) :
    List Chars × List (Chars × StyleInfoEntry) :=
  selectGo numImages styles [] []

/-- Base64 alphabet used by `base64.b64encode`. -/
def b64Alphabet : Chars :=
  "ABCDEFGHIJKLMNOPQRSTUVWXYZabcdefghijklmnopqrstuvwxyz0123456789+/".data

def b64Char (n : Nat) : Char := b64Alphabet.getD n 'A'

/-- Model of `base64.b64encode` on a byte sequence (bytes as naturals,
reduced mod 256), as used by `load_image_from_upload` (line 120). -/
def base64Encode : List Nat → Chars
  | [] => []
  | [a] => [b64Char (a % 256 / 4), b64Char (a % 4 * 16), '=', '=']
  | [a, b] => [b64Char (a % 256 / 4), b64Char (a % 4 * 16 + b % 256 / 16),
               b64Char (b % 16 * 4), '=']
  | a :: b :: c :: rest =>
      [b64Char (a % 256 / 4), b64Char (a % 4 * 16 + b % 256 / 16),
       b64Char (b % 16 * 4 + c % 256 / 64), b64Char (c % 64)] ++ base64Encode rest

/-- Embedding of `load_image_from_upload` (lines 115-122). -/
def load_image_from_upload : Option (List Nat) → Option Chars
  | none => none
  | some bytes => some (base64Encode bytes)

/-- The five preference keys of lines 342-348, created and deleted together. -/
structure PrefsState where
  randomImages : List Chars
  styleInfo : List (Chars × StyleInfoEntry)
  currentIndex : Nat
  likedImages : List Chars
  dislikedImages : List Chars
deriving DecidableEq

/-- The session dictionary (`st.session_state`); `none` models an absent key. -/
structure Session where
  step : Nat
  prefs : Option PrefsState
  roomType : Option Chars
  roomSize : Option Chars
  roomImage : Option Chars
  designOptions : Option (List Chars)
deriving DecidableEq

/-- The session as first initialised (lines 325-326: only `step = 1`). -/
def initialSession : Session :=
  ⟨1, none, none, none, none, none⟩

/-- One user-visible interaction with the flow, each corresponding to one
script rerun.  `initPrefs` is the render-time initialisation of lines
342-348 (its arguments are the output of `select_random_images`);
`generate` carries the room form contents and the uploaded file's bytes;
`genOptions` is the render-time generation of lines 470-479. -/
inductive Event where
  | initPrefs : List Chars → List (Chars × StyleInfoEntry) → Event
  | like : Event
  | dislike : Event
  | resetStyles : Event
  | continueUpload : Event
  | backToPrefs : Event
  | generate : Chars → Chars → List Nat → Event
  | backToUpload : Event
  | genOptions : ApiResult → Event
  | startOver : Event

/-- Transition function of the flow: the effect of one interaction on the
session state, following `main` (lines 306-503).  Buttons only exist on
the page of their step, so each event is guarded by the current step. -/
def stepFn (s : Session) (e : Event) : Session :=
  match e with
  | .initPrefs imgs info =>
      if s.step = 1 then
        match s.prefs with
        | none => { s with prefs := some ⟨imgs, info, 0, [], []⟩ }
        | some _ => s
      else s
  | .like =>
      if s.step = 1 then
        match s.prefs with
        | some p =>
            if p.currentIndex < p.randomImages.length then
              { s with prefs := some { p with
                  likedImages := p.likedImages ++ [p.randomImages.getD p.currentIndex []],
                  currentIndex := p.currentIndex + 1 } }
            else s
        | none => s
      else s
  | .dislike =>
      if s.step = 1 then
        match s.prefs with
        | some p =>
            if p.currentIndex < p.randomImages.length then
              { s with prefs := some { p with
                  dislikedImages := p.dislikedImages ++ [p.randomImages.getD p.currentIndex []],
                  currentIndex := p.currentIndex + 1 } }
            else s
        | none => s
      else s
  | .resetStyles =>
      if s.step = 1 then
        match s.prefs with
        | some p =>
            if p.randomImages.length ≤ p.currentIndex then { s with prefs := none } else s
        | none => s
      else s
  | .continueUpload =>
      if s.step = 1 then
        match s.prefs with
        | some p =>
            if p.randomImages.length ≤ p.currentIndex then
              if p.likedImages = [] then s else { s with step := 2 }
            else s
        | none => s
      else s
  | .backToPrefs => if s.step = 2 then { s with step := 1 } else s
  | .generate roomType roomSize fileBytes =>
      if s.step = 2 then
        let encoded := base64Encode fileBytes
        if encoded = [] then s
        else { s with roomType := some roomType, roomSize := some roomSize,
                      roomImage := some encoded, step := 3 }
      else s
  | .backToUpload => if s.step = 3 then { s with step := 2 } else s
  | .genOptions api =>
      if s.step = 3 then
        match s.designOptions with
        | none => { s with designOptions := some (generate_design_options api 5) }
        | some _ => s
      else s
  | .startOver => if s.step = 3 then initialSession else s

/-- The session states reachable from a fresh session by user interactions. -/
inductive Reachable : Session → Prop where
  | init : Reachable initialSession
  | step : ∀ {s : Session} (e : Event), Reachable s → Reachable (stepFn s e)

end App

namespace App

/-- The guard property of claim C7: past the preference step the session
holds a nonempty liked-images list, and at the results step it holds a
successfully decoded (nonempty base64) room image. -/
def flowInvariant (s : Session) : Prop :=
  ((s.step = 2 ∨ s.step = 3) → ∃ p, s.prefs = some p ∧ p.likedImages ≠ []) ∧
  (s.step = 3 → ∃ enc, s.roomImage = some enc ∧ enc ≠ [])

theorem flowInvariant_step (s : Session) (e : Event)
    (ih : flowInvariant s) : flowInvariant (stepFn s e) := by
  unfold flowInvariant at ih ⊢
  cases e with
  | initPrefs imgs info =>
    by_cases h1 : s.step = 1
    · cases hp : s.prefs with
      | none => simp [stepFn, h1, hp]
      | some p =>
        rw [show stepFn s (Event.initPrefs imgs info) = s from by simp [stepFn, h1, hp]]
        exact ih
    · rw [show stepFn s (Event.initPrefs imgs info) = s from by simp [stepFn, h1]]
      exact ih
  | like =>
    by_cases h1 : s.step = 1
    · cases hp : s.prefs with
      | none =>
        rw [show stepFn s Event.like = s from by simp [stepFn, h1, hp]]
        exact ih
      | some p =>
        by_cases hidx : p.currentIndex < p.randomImages.length
        · simp [stepFn, h1, hp, hidx]
        · rw [show stepFn s Event.like = s from by simp [stepFn, h1, hp, hidx]]
          exact ih
    · rw [show stepFn s Event.like = s from by simp [stepFn, h1]]
      exact ih
  | dislike =>
    by_cases h1 : s.step = 1
    · cases hp : s.prefs with
      | none =>
        rw [show stepFn s Event.dislike = s from by simp [stepFn, h1, hp]]
        exact ih
      | some p =>
        by_cases hidx : p.currentIndex < p.randomImages.length
        · simp [stepFn, h1, hp, hidx]
        · rw [show stepFn s Event.dislike = s from by simp [stepFn, h1, hp, hidx]]
          exact ih
    · rw [show stepFn s Event.dislike = s from by simp [stepFn, h1]]
      exact ih
  | resetStyles =>
    by_cases h1 : s.step = 1
    · cases hp : s.prefs with
      | none =>
        rw [show stepFn s Event.resetStyles = s from by simp [stepFn, h1, hp]]
        exact ih
      | some p =>
        by_cases hidx : p.randomImages.length ≤ p.currentIndex
        · simp [stepFn, h1, hp, hidx]
        · rw [show stepFn s Event.resetStyles = s from by simp [stepFn, h1, hp, hidx]]
          exact ih
    · rw [show stepFn s Event.resetStyles = s from by simp [stepFn, h1]]
      exact ih
  | continueUpload =>
    by_cases h1 : s.step = 1
    · cases hp : s.prefs with
      | none =>
        rw [show stepFn s Event.continueUpload = s from by simp [stepFn, h1, hp]]
        exact ih
      | some p =>
        by_cases hidx : p.randomImages.length ≤ p.currentIndex
        · by_cases hl : p.likedImages = []
          · rw [show stepFn s Event.continueUpload = s from by
              simp [stepFn, h1, hp, hidx, hl]]
            exact ih
          · rw [show stepFn s Event.continueUpload = { s with step := 2 } from by
              simp [stepFn, h1, hp, hidx, hl]]
            exact ⟨fun _ => ⟨p, hp, hl⟩, fun h3 => by simp at h3⟩
        · rw [show stepFn s Event.continueUpload = s from by simp [stepFn, h1, hp, hidx]]
          exact ih
    · rw [show stepFn s Event.continueUpload = s from by simp [stepFn, h1]]
      exact ih
  | backToPrefs =>
    by_cases h2 : s.step = 2
    · rw [show stepFn s Event.backToPrefs = { s with step := 1 } from by simp [stepFn, h2]]
      exact ⟨fun h => by simp at h, fun h => by simp at h⟩
    · rw [show stepFn s Event.backToPrefs = s from by simp [stepFn, h2]]
      exact ih
  | generate rt rs bytes =>
    by_cases h2 : s.step = 2
    · by_cases henc : base64Encode bytes = []
      · rw [show stepFn s (Event.generate rt rs bytes) = s from by simp [stepFn, h2, henc]]
        exact ih
      · obtain ⟨p, hp, hl⟩ := ih.1 (Or.inl h2)
        rw [show stepFn s (Event.generate rt rs bytes) =
            { s with roomType := some rt, roomSize := some rs,
                     roomImage := some (base64Encode bytes), step := 3 } from by
          simp [stepFn, h2, henc]]
        exact ⟨fun _ => ⟨p, hp, hl⟩, fun _ => ⟨base64Encode bytes, rfl, henc⟩⟩
    · rw [show stepFn s (Event.generate rt rs bytes) = s from by simp [stepFn, h2]]
      exact ih
  | backToUpload =>
    by_cases h3 : s.step = 3
    · obtain ⟨p, hp, hl⟩ := ih.1 (Or.inr h3)
      rw [show stepFn s Event.backToUpload = { s with step := 2 } from by simp [stepFn, h3]]
      exact ⟨fun _ => ⟨p, hp, hl⟩, fun h => by simp at h⟩
    · rw [show stepFn s Event.backToUpload = s from by simp [stepFn, h3]]
      exact ih
  | genOptions api =>
    by_cases h3 : s.step = 3
    · cases hd : s.designOptions with
      | some o =>
        rw [show stepFn s (Event.genOptions api) = s from by simp [stepFn, h3, hd]]
        exact ih
      | none =>
        obtain ⟨p, hp, hl⟩ := ih.1 (Or.inr h3)
        obtain ⟨enc, he, hne⟩ := ih.2 h3
        rw [show stepFn s (Event.genOptions api) =
            { s with designOptions := some (generate_design_options api 5) } from by
          simp [stepFn, h3, hd]]
        exact ⟨fun _ => ⟨p, hp, hl⟩, fun _ => ⟨enc, he, hne⟩⟩
    · rw [show stepFn s (Event.genOptions api) = s from by simp [stepFn, h3]]
      exact ih
  | startOver =>
    by_cases h3 : s.step = 3
    · rw [show stepFn s Event.startOver = initialSession from by simp [stepFn, h3]]
      exact ⟨fun h => by simp [initialSession] at h, fun h => by simp [initialSession] at h⟩
    · rw [show stepFn s Event.startOver = s from by simp [stepFn, h3]]
      exact ih

end App

/-- Claim C7.  In every reachable state of the interactive flow, being at
the upload or results step implies at least one liked image is recorded
(so the flow cannot have advanced from the preference step with an empty
liked list), and being at the results step implies a successfully decoded
(nonempty base64) room image is stored in the session. -/
theorem c7_flow_guards : ∀ s : App.Session, App.Reachable s → App.flowInvariant s := by
  intro s0 h
  induction h with
  | init =>
    exact ⟨fun h12 => by rcases h12 with h | h <;> simp [App.initialSession] at h,
      fun h3 => by simp [App.initialSession] at h3⟩
  | step e hr ih => exact App.flowInvariant_step _ e ih

/-- A concrete interaction trace for the C7 witness: initialise the
preference step with one image, like it, continue, and upload one byte. -/
def c7SampleState : App.Session :=
  App.stepFn
    (App.stepFn
      (App.stepFn
        (App.stepFn App.initialSession
          (App.Event.initPrefs ["i1".data] [("i1".data, ⟨"Modern".data, "d".data⟩)]))
        App.Event.like)
      App.Event.continueUpload)
    (App.Event.generate "Living Room".data [] [77])

theorem c7_flow_guards_witness : App.flowInvariant c7SampleState :=
  c7_flow_guards c7SampleState
    (App.Reachable.step _
      (App.Reachable.step _
        (App.Reachable.step _
          (App.Reachable.step _ App.Reachable.init))))

/-- Claim C8.  The Start Over action at the results step deletes every
session key (lines 500-503): the resulting state is the freshly
initialised session, back at the preference step with no preference
lists, no generated design options and no uploaded room image. -/
theorem c8_start_over_resets :
    ∀ s : App.Session, s.step = 3 →
      App.stepFn s App.Event.startOver = App.initialSession ∧
      App.initialSession.step = 1 ∧
      App.initialSession.prefs = none ∧
      App.initialSession.roomImage = none ∧
      App.initialSession.designOptions = none := by
  intro s h3
  exact ⟨by simp [App.stepFn, h3], rfl, rfl, rfl, rfl⟩

/-- A fully populated results-step session for the C8 witness. -/
def c8SampleState : App.Session :=
  ⟨3, some ⟨["i".data], [("i".data, ⟨"Modern".data, "d".data⟩)], 1, ["i".data], []⟩,
    some "Bedroom".data, some [], some "TQ==".data, some ["opt".data]⟩

theorem c8_start_over_resets_witness :
    App.stepFn c8SampleState App.Event.startOver = App.initialSession ∧
    App.initialSession.step = 1 ∧
    App.initialSession.prefs = none ∧
    App.initialSession.roomImage = none ∧
    App.initialSession.designOptions = none :=
  c8_start_over_resets c8SampleState rfl

namespace App

/-- Closed form of the inner loop of `select_random_images`: exactly the
images that still fit below `num_images` are appended, each together with
its `style_info` entry. -/
theorem addImgs_spec (numImages : Nat) (entry : StyleInfoEntry) :
    ∀ (sel acc : List Chars) (info : List (Chars × StyleInfoEntry)),
      addImgs numImages entry sel acc info =
        (acc ++ sel.take (numImages - acc.length),
         info ++ (sel.take (numImages - acc.length)).map (fun p => (p, entry))) := by
  intro sel
  induction sel with
  | nil => intro acc info; simp [addImgs]
  | cons img imgs ih =>
    intro acc info
    by_cases h : acc.length < numImages
    · have hk : numImages - acc.length = (numImages - (acc.length + 1)) + 1 := by omega
      rw [addImgs, if_pos h, ih, hk]
      simp [List.take_succ_cons]
    · have hk : numImages - acc.length = 0 := by omega
      rw [addImgs, if_neg h, ih, hk]
      simp

theorem selectGo_length_le (numImages : Nat) :
    ∀ (styles : List LoadedStyle) (acc : List Chars)
      (info : List (Chars × StyleInfoEntry)),
      acc.length ≤ numImages →
      (selectGo numImages styles acc info).1.length ≤ numImages := by
  intro styles
  induction styles with
  | nil => intro acc info hle; exact hle
  | cons style rest ih =>
    intro acc info hle
    rw [selectGo]
    split
    · exact hle
    · split
      · exact ih acc info hle
      · simp only [addImgs_spec]
        apply ih
        simp [List.length_take]
        omega

theorem selectGo_coverage (numImages : Nat) :
    ∀ (styles : List LoadedStyle) (acc : List Chars)
      (info : List (Chars × StyleInfoEntry)),
      (∀ p ∈ acc, ∃ e, (p, e) ∈ info) →
      ∀ p ∈ (selectGo numImages styles acc info).1,
        ∃ e, (p, e) ∈ (selectGo numImages styles acc info).2 := by
  intro styles
  induction styles with
  | nil => intro acc info hcov; exact hcov
  | cons style rest ih =>
    intro acc info hcov
    rw [selectGo]
    split
    · exact hcov
    · split
      · exact ih acc info hcov
      · simp only [addImgs_spec]
        apply ih
        intro p hp
        rcases List.mem_append.mp hp with h | h
        · obtain ⟨e, he⟩ := hcov p h
          exact ⟨e, List.mem_append_left _ he⟩
        · exact ⟨⟨style.name, style.description⟩,
            List.mem_append_right _ (List.mem_map_of_mem _ h)⟩

theorem selectGo_decomp (numImages : Nat) :
    ∀ (styles : List LoadedStyle) (acc : List Chars)
      (info : List (Chars × StyleInfoEntry)),
      ∃ chosen : List (LoadedStyle × List Chars),
        (selectGo numImages styles acc info).1 = acc ++ (chosen.map Prod.snd).join ∧
        (chosen.map Prod.fst).Sublist styles ∧
        ∀ c ∈ chosen, c.2.length ≤ 2 ∧ ∀ p ∈ c.2, p ∈ c.1.imagePaths := by
  intro styles
  induction styles with
  | nil =>
    intro acc info
    exact ⟨[], by simp [selectGo], by simp, by simp⟩
  | cons style rest ih =>
    intro acc info
    rw [selectGo]
    split
    · exact ⟨[], by simp, List.nil_sublist _, by simp⟩
    · split
      · obtain ⟨chosen, h1, h2, h3⟩ := ih acc info
        exact ⟨chosen, h1, h2.cons style, h3⟩
      · simp only [addImgs_spec]
        obtain ⟨chosen, h1, h2, h3⟩ := ih
          (acc ++ (style.imagePaths.take (min 2 style.imagePaths.length)).take
            (numImages - acc.length))
          (info ++ ((style.imagePaths.take (min 2 style.imagePaths.length)).take
            (numImages - acc.length)).map
              (fun p => (p, (⟨style.name, style.description⟩ : StyleInfoEntry))))
        refine ⟨(style, (style.imagePaths.take (min 2 style.imagePaths.length)).take
          (numImages - acc.length)) :: chosen, ?_, h2.cons₂ style, ?_⟩
        · rw [h1]
          simp
        · intro c hc
          rcases List.mem_cons.mp hc with rfl | hc
        
          · refine ⟨?_, ?_⟩
            · have := List.length_take_le (numImages - acc.length)
                (style.imagePaths.take (min 2 style.imagePaths.length))
              have h2' := List.length_take_le (min 2 style.imagePaths.length)
                style.imagePaths
              simp only [List.length_take]
              omega
            · intro p hp
              exact List.take_subset _ _ (List.take_subset _ _ hp)
          · exact h3 c hc

end App

/-- Claim C9.  `select_random_images` returns at most `num_images` image
paths; every returned path has an entry (style name and description) in
the returned `style_info` mapping, so the UI's per-image lookup never
misses; and the returned list decomposes into per-style contributions of
at most 2 images, each drawn from that style's own image list, with the
contributing styles a subsequence of the input styles. -/
theorem c9_select_random_images_spec :
    ∀ (styles : List App.LoadedStyle) (numImages : Nat),
      (App.select_random_images styles numImages).1.length ≤ numImages ∧
      (∀ p ∈ (App.select_random_images styles numImages).1,
        ∃ e, (p, e) ∈ (App.select_random_images styles numImages).2) ∧
      (∃ chosen : List (App.LoadedStyle × List Chars),
        (App.select_random_images styles numImages).1 = (chosen.map Prod.snd).join ∧
        (chosen.map Prod.fst).Sublist styles ∧
        ∀ c ∈ chosen, c.2.length ≤ 2 ∧ ∀ p ∈ c.2, p ∈ c.1.imagePaths) := by
  intro styles numImages
  refine ⟨App.selectGo_length_le numImages styles [] [] (by simp),
    App.selectGo_coverage numImages styles [] [] (by simp), ?_⟩
  obtain ⟨chosen, h1, h2, h3⟩ := App.selectGo_decomp numImages styles [] []
  exact ⟨chosen, by simpa using h1, h2, h3⟩

/-- A concrete style list for the C9 witness. -/
def c9SampleStyles : List App.LoadedStyle :=
  [⟨"Modern".data, "clean lines".data, ["p1".data, "p2".data, "p3".data]⟩,
   ⟨"Rustic".data, "warm wood".data, ["q1".data]⟩]

theorem c9_select_random_images_spec_witness :
    (App.select_random_images c9SampleStyles 5).1.length ≤ 5 ∧
    (∃ e, ("p1".data, e) ∈ (App.select_random_images c9SampleStyles 5).2) ∧
    (∃ chosen : List (App.LoadedStyle × List Chars),
      (App.select_random_images c9SampleStyles 5).1 = (chosen.map Prod.snd).join ∧
      (chosen.map Prod.fst).Sublist c9SampleStyles ∧
      ∀ c ∈ chosen, c.2.length ≤ 2 ∧ ∀ p ∈ c.2, p ∈ c.1.imagePaths) := by
  obtain ⟨h1, h2, h3⟩ := c9_select_random_images_spec c9SampleStyles 5
  exact ⟨h1, h2 "p1".data (by decide), h3⟩
